import Mathlib

/-!
Shallow embedding of the dwg-rs decoding core (src/version.rs, src/bitcodes.rs,
src/dwg.rs) and proofs about it.

Modelling conventions:
* Machine integers become `Nat` (unsigned) or `Int` (signed two's-complement
  values), with explicit truncation / reinterpretation helpers mirroring Rust
  `as` casts.
* `f64` values are represented by their 64-bit IEEE-754 bit patterns as `Nat`
  (the source only ever assembles doubles from raw bits via `f64::from_bits`
  or returns the literals `0.0` / `1.0`, so the bit-pattern view is exact).
* Fallible reads mirror Rust `Option`.  Code points that can also panic
  (`assert!`, `assert_eq!`, `unreachable!`) return `RResult`, whose `fatal`
  constructor marks a panic, `err` marks Rust `Option::None`, and `val` marks
  `Option::Some`.
* `&mut self` methods become state-passing functions
  `BitReader → result × BitReader`; the state component is returned in every
  outcome, matching the fact that a failing Rust call leaves the mutated
  reader behind.
* The `while n > 0` loop of `read_bits` is compiled to structural recursion on
  an extra fuel counter initialised to `N`; since every loop iteration
  consumes at least one bit of the request, fuel `N` is never exhausted, so
  the fuel branch is unreachable and the model is exact.
-/

namespace Dwg

/-- Version enumeration of src/version.rs (`pub enum DWGVersion`), seven
variants in declaration order R13 .. R2018. -/
inductive DWGVersion : Type where
  | AC1012
  | AC1014
  | AC1015
  | AC1018
  | AC1021
  | AC1027
  | AC1032
deriving DecidableEq, Repr

/-- Discriminant of a `DWGVersion` variant in declaration order.  Rust's
derived `PartialOrd`/`Ord` on a fieldless enum compares exactly these
discriminants, and declaration order here coincides with chronological
release order.  Note that src/version.rs only derives `PartialEq`, although
src/bitcodes.rs and src/dwg.rs apply `>=` and `<=` to `DWGVersion` values;
the comparisons below model the ordering those call sites require. -/
def DWGVersion.idx : DWGVersion → Nat
  | .AC1012 => 0
  | .AC1014 => 1
  | .AC1015 => 2
  | .AC1018 => 3
  | .AC1021 => 4
  | .AC1027 => 5
  | .AC1032 => 6

/-- ASCII bytes of the magic token "AC1012". -/
def magicAC1012 : List Nat := [0x41, 0x43, 0x31, 0x30, 0x31, 0x32]
/-- ASCII bytes of the magic token "AC1014". -/
def magicAC1014 : List Nat := [0x41, 0x43, 0x31, 0x30, 0x31, 0x34]
/-- ASCII bytes of the magic token "AC1015". -/
def magicAC1015 : List Nat := [0x41, 0x43, 0x31, 0x30, 0x31, 0x35]
/-- ASCII bytes of the magic token "AC1018". -/
def magicAC1018 : List Nat := [0x41, 0x43, 0x31, 0x30, 0x31, 0x38]
/-- ASCII bytes of the magic token "AC1021". -/
def magicAC1021 : List Nat := [0x41, 0x43, 0x31, 0x30, 0x32, 0x31]
/-- ASCII bytes of the magic token "AC1027". -/
def magicAC1027 : List Nat := [0x41, 0x43, 0x31, 0x30, 0x32, 0x37]
/-- ASCII bytes of the magic token "AC1032". -/
def magicAC1032 : List Nat := [0x41, 0x43, 0x31, 0x30, 0x33, 0x32]

/-- Embedding of `DWGVersion::from_magic` (src/version.rs): exact
byte-for-byte match of the 6-byte magic against the seven known ASCII
tokens, anything else mapping to `None`. -/
def DWGVersion.from_magic (magic : List Nat) : Option DWGVersion :=
  if magic = magicAC1012 then some .AC1012
  else if magic = magicAC1014 then some .AC1014
  else if magic = magicAC1015 then some .AC1015
  else if magic = magicAC1018 then some .AC1018
  else if magic = magicAC1021 then some .AC1021
  else if magic = magicAC1027 then some .AC1027
  else if magic = magicAC1032 then some .AC1032
  else none

/-- Embedding of `BitReader` (src/bitcodes.rs): current byte, current in-byte
bit offset (0 = fresh byte, 8 = byte exhausted), the not-yet-pulled suffix of
the byte iterator, and the active version. -/
structure BitReader : Type where
  cur_byte : Nat
  cur_bit : Nat
  bytes : List Nat
  version : DWGVersion
deriving DecidableEq, Repr

/-- Embedding of `BitReader::new`: wraps a byte sequence with `cur_byte = 0`,
`cur_bit = 8` and the initial version assumption `AC1015` (R2000). -/
def BitReader.new (l : List Nat) : BitReader :=
  { cur_byte := 0, cur_bit := 8, bytes := l, version := DWGVersion.AC1015 }

/-- Embedding of `BitReader::get_version`. -/
def BitReader.get_version (st : BitReader) : DWGVersion :=
  st.version

/-- Embedding of `BitReader::set_version`. -/
def BitReader.set_version (v : DWGVersion) (st : BitReader) : BitReader :=
  { st with version := v }

/-- Loop body of `BitReader::read_bits::<N>`: `readBitsAux N fuel res n st`
models the `while n > 0` loop with accumulator `res` and `n` bits still to
read.  `fuel` is structural-recursion scaffolding: every iteration consumes
`bits_read ≥ 1` bits of the request, so starting with `fuel = N` the
fuel-exhaustion branch can never fire. -/
def readBitsAux (N : Nat) : Nat → Nat → Nat → BitReader → Option Nat × BitReader
  | _, res, 0, st => (some res, st)
  | 0, _, _ + 1, st => (none, st)
  | fuel + 1, res, n + 1, st =>
    if 8 - st.cur_bit = 0 then
      match st.bytes with
      | [] => (none, st)
      | b :: rest =>
        let bits_read := min (n + 1) 8
        let mask := 2 ^ bits_read - 1
        readBitsAux N fuel (res ||| ((mask &&& (b >>> 0)) <<< (N - (n + 1))))
          (n + 1 - bits_read)
          { st with cur_byte := b, cur_bit := 0 + bits_read, bytes := rest }
    else
      let rem_bits := 8 - st.cur_bit
      let bits_read := min (n + 1) rem_bits
      let mask := 2 ^ bits_read - 1
      readBitsAux N fuel
        (res ||| ((mask &&& (st.cur_byte >>> st.cur_bit)) <<< (N - (n + 1))))
        (n + 1 - bits_read)
        { st with cur_bit := st.cur_bit + bits_read }

/-- Embedding of `BitReader::read_bits::<N>` (src/bitcodes.rs lines 59-91):
reads `N` bits, earlier-consumed chunks in the low-order result bits,
returning `none` when the byte source is exhausted first.  The source
additionally asserts `0 < N ≤ 32` (a panic on contract violation); the model
is only ever used, and only ever reasoned about, in that range. -/
def read_bits (N : Nat) (st : BitReader) : Option Nat × BitReader :=
  readBitsAux N N 0 N st

/-- Embedding of `BitReader::read_bit`: `read_bits::<1>` with an `as u8`
cast that is the identity on values below 256. -/
def read_bit (st : BitReader) : Option Nat × BitReader :=
  read_bits 1 st

/-- Reinterpretation of the low `w` bits of `x` as a `w`-bit two's-complement
signed integer; models Rust `as i8` / `as i16` / `as i32` / `as i64` casts
from an unsigned value. -/
def toSigned (w : Nat) (x : Nat) : Int :=
  if x % 2 ^ w < 2 ^ (w - 1) then ((x % 2 ^ w : Nat) : Int)
  else ((x % 2 ^ w : Nat) : Int) - ((2 ^ w : Nat) : Int)

/-- Reinterpretation of a signed value as a 64-bit unsigned value; models the
Rust cast `as u64` applied to a (sign-extended) signed integer. -/
def intAsU64 (v : Int) : Nat :=
  (v % 2 ^ 64).toNat

/-- Reinterpretation of a signed 8-bit value as `u8`; models Rust `as u8`
applied to an `i8`. -/
def i8_as_u8 (v : Int) : Nat :=
  (v % 256).toNat

/-- Embedding of `BitReader::read_raw_char`: 8 raw bits reinterpreted as `i8`. -/
def read_raw_char (st : BitReader) : Option Int × BitReader :=
  match read_bits 8 st with
  | (o, st') => (o.map (toSigned 8), st')

/-- Embedding of `BitReader::read_raw_short`: 16 raw bits reinterpreted as `i16`. -/
def read_raw_short (st : BitReader) : Option Int × BitReader :=
  match read_bits 16 st with
  | (o, st') => (o.map (toSigned 16), st')

/-- Embedding of `BitReader::read_raw_long`: 32 raw bits reinterpreted as `i32`. -/
def read_raw_long (st : BitReader) : Option Int × BitReader :=
  match read_bits 32 st with
  | (o, st') => (o.map (toSigned 32), st')

/-- Embedding of `BitReader::read_raw_longlong`: two 32-bit raw reads, each
zero-extended to 64 bits (`as u64` on a `u32`), combined low word first and
reinterpreted as `i64`. -/
def read_raw_longlong (st : BitReader) : Option Int × BitReader :=
  match read_bits 32 st with
  | (none, st1) => (none, st1)
  | (some x1, st1) =>
    match read_bits 32 st1 with
    | (none, st2) => (none, st2)
    | (some x2, st2) => (some (toSigned 64 ((x2 <<< 32) ||| x1)), st2)

/-- Embedding of `BitReader::read_raw_double`: two 32-bit raw reads combined
low word first into the 64-bit pattern handed to `f64::from_bits`; the model
returns that bit pattern. -/
def read_raw_double (st : BitReader) : Option Nat × BitReader :=
  match read_bits 32 st with
  | (none, st1) => (none, st1)
  | (some x1, st1) =>
    match read_bits 32 st1 with
    | (none, st2) => (none, st2)
    | (some x2, st2) => (some ((x2 <<< 32) ||| x1), st2)

/-- Embedding of `BitReader::read_version`: reads the six magic bytes through
`read_bits::<8>` and resolves them via `DWGVersion::from_magic`, without
touching the reader's stored version. -/
def read_version (st : BitReader) : Option DWGVersion × BitReader :=
  match read_bits 8 st with
  | (none, s) => (none, s)
  | (some b0, s) =>
    match read_bits 8 s with
    | (none, s) => (none, s)
    | (some b1, s) =>
      match read_bits 8 s with
      | (none, s) => (none, s)
      | (some b2, s) =>
        match read_bits 8 s with
        | (none, s) => (none, s)
        | (some b3, s) =>
          match read_bits 8 s with
          | (none, s) => (none, s)
          | (some b4, s) =>
            match read_bits 8 s with
            | (none, s) => (none, s)
            | (some b5, s) => (DWGVersion.from_magic [b0, b1, b2, b3, b4, b5], s)

/-- Embedding of `BitReader::read_bitshort` (src/bitcodes.rs lines 109-118):
2-bit selector, then raw 16-bit signed value / zero-extended byte /
literal 0 / literal 256. -/
def read_bitshort (st : BitReader) : Option Int × BitReader :=
  match read_bits 2 st with
  | (none, st') => (none, st')
  | (some flag, st') =>
    if flag = 0 then read_raw_short st'
    else if flag = 1 then
      match read_bits 8 st' with
      | (o, st2) => (o.map (fun x => (x : Int)), st2)
    else if flag = 2 then (some 0, st')
    else (some 256, st')

/-- Embedding of `BitReader::read_bitlong` (src/bitcodes.rs lines 120-129):
2-bit selector, then raw 32-bit signed value / zero-extended byte /
literal 0 / literal 256. -/
def read_bitlong (st : BitReader) : Option Int × BitReader :=
  match read_bits 2 st with
  | (none, st') => (none, st')
  | (some flag, st') =>
    if flag = 0 then read_raw_long st'
    else if flag = 1 then
      match read_bits 8 st' with
      | (o, st2) => (o.map (fun x => (x : Int)), st2)
    else if flag = 2 then (some 0, st')
    else (some 256, st')

/-- Embedding of `BitReader::read_bitlonglong` (src/bitcodes.rs lines
131-144).  Selector 0 performs `read_raw_long()? as u64` twice — an `i32`
cast to `u64`, hence SIGN-extended — and combines them as
`(x2 << 32 | x1) as i64`.  The sign extension of `x1` floods the high 32
bits of `x1 as u64` with ones whenever the first word is negative as `i32`,
which the `|` then merges into the high word. -/
def read_bitlonglong (st : BitReader) : Option Int × BitReader :=
  match read_bits 2 st with
  | (none, st') => (none, st')
  | (some flag, st') =>
    if flag = 0 then
      match read_raw_long st' with
      | (none, st1) => (none, st1)
      | (some x1i, st1) =>
        match read_raw_long st1 with
        | (none, st2) => (none, st2)
        | (some x2i, st2) =>
          let x1 := intAsU64 x1i
          let x2 := intAsU64 x2i
          (some (toSigned 64 ((x2 <<< 32) ||| x1)), st2)
    else if flag = 1 then
      match read_bits 8 st' with
      | (o, st2) => (o.map (fun x => (x : Int)), st2)
    else if flag = 2 then (some 0, st')
    else (some 256, st')

/-- Outcome of a modelled Rust call that can also panic: `val` models
`Option::Some`, `err` models `Option::None` (stream exhaustion or an inner
decoder returning `None`), and `fatal` models a panic raised by
`assert!` / `assert_eq!` / `unreachable!`. -/
inductive RResult (α : Type) : Type where
  | val : α → RResult α
  | err : RResult α
  | fatal : RResult α
deriving DecidableEq, Repr

/-- Bit pattern of the `f64` literal `1.0`. -/
def f64_one_bits : Nat := 0x3FF0000000000000

/-- Bit pattern of the `f64` literal `0.0`. -/
def f64_zero_bits : Nat := 0

/-- Embedding of `BitReader::read_bitdouble` (src/bitcodes.rs lines 146-154):
2-bit selector, then raw 64-bit double bits / literal 1.0 / literal 0.0;
selector 3 hits `unreachable!()`, i.e. a panic, modelled as `fatal`. -/
def read_bitdouble (st : BitReader) : RResult Nat × BitReader :=
  match read_bits 2 st with
  | (none, st') => (RResult.err, st')
  | (some flag, st') =>
    if flag = 0 then
      match read_raw_double st' with
      | (none, st2) => (RResult.err, st2)
      | (some v, st2) => (RResult.val v, st2)
    else if flag = 1 then (RResult.val f64_one_bits, st')
    else if flag = 2 then (RResult.val f64_zero_bits, st')
    else (RResult.fatal, st')

/-- Tail of `BitReader::read_bit_extrusion`: the unconditional sequence of
three `read_bitdouble` calls producing the three axes. -/
def readThreeBitDoubles (st : BitReader) : RResult (Nat × Nat × Nat) × BitReader :=
  match read_bitdouble st with
  | (RResult.err, s1) => (RResult.err, s1)
  | (RResult.fatal, s1) => (RResult.fatal, s1)
  | (RResult.val x1, s1) =>
    match read_bitdouble s1 with
    | (RResult.err, s2) => (RResult.err, s2)
    | (RResult.fatal, s2) => (RResult.fatal, s2)
    | (RResult.val x2, s2) =>
      match read_bitdouble s2 with
      | (RResult.err, s3) => (RResult.err, s3)
      | (RResult.fatal, s3) => (RResult.fatal, s3)
      | (RResult.val x3, s3) => (RResult.val (x1, x2, x3), s3)

/-- Embedding of `BitReader::read_bit_extrusion` (src/bitcodes.rs lines
208-221): on versions at or after AC1015 a leading bit is read and, when
set, the literal vector (0, 0, 1.0) is returned with no further reads;
otherwise (and unconditionally on older versions) three bit-doubles are
read. -/
def read_bit_extrusion (st : BitReader) : RResult (Nat × Nat × Nat) × BitReader :=
  if DWGVersion.AC1015.idx ≤ st.version.idx then
    match read_bit st with
    | (none, s1) => (RResult.err, s1)
    | (some bit, s1) =>
      if bit = 1 then (RResult.val (f64_zero_bits, f64_zero_bits, f64_one_bits), s1)
      else readThreeBitDoubles s1
  else
    readThreeBitDoubles st

/-- Loop of `BitReader::read_modular_char` (src/bitcodes.rs lines 156-168):
each byte contributes its low 7 bits at offset `i * 7`, continuing while the
top bit is set.  `fuel` is structural-recursion scaffolding: every iteration
consumes 8 bits of a finite stream, so `fuel = bytes.length + 2` is never
exhausted.  The accumulator is kept as `Nat`; the source accumulates into an
`i32` whose overflow (unreachable for in-range encodings) would panic in a
debug build. -/
def read_modular_char_aux : Nat → Nat → Nat → BitReader → Option Nat × BitReader
  | 0, _, _, st => (none, st)
  | fuel + 1, res, i, st =>
    match read_bits 8 st with
    | (none, st') => (none, st')
    | (some byte, st') =>
      let res' := res ||| ((byte &&& 0x7F) <<< (i * 7))
      if byte &&& 0x80 = 0 then (some res', st')
      else read_modular_char_aux fuel res' (i + 1) st'

/-- Embedding of `BitReader::read_modular_char`. -/
def read_modular_char (st : BitReader) : Option Nat × BitReader :=
  read_modular_char_aux (st.bytes.length + 2) 0 0 st

/-- Loop of `BitReader::read_modular_short` (src/bitcodes.rs lines 170-182):
each 16-bit chunk contributes its low 15 bits at offset `i * 15`, continuing
while the chunk's top bit is set; fuel as in `read_modular_char_aux`. -/
def read_modular_short_aux : Nat → Nat → Nat → BitReader → Option Nat × BitReader
  | 0, _, _, st => (none, st)
  | fuel + 1, res, i, st =>
    match read_bits 16 st with
    | (none, st') => (none, st')
    | (some chunk, st') =>
      let res' := res ||| ((chunk &&& 0x7FFF) <<< (i * 15))
      if chunk &&& 0x8000 = 0 then (some res', st')
      else read_modular_short_aux fuel res' (i + 1) st'

/-- Embedding of `BitReader::read_modular_short`. -/
def read_modular_short (st : BitReader) : Option Nat × BitReader :=
  read_modular_short_aux (st.bytes.length + 2) 0 0 st

/-- Sequencing of a Rust `?` on an `Option`-returning read inside a function
whose model also tracks panics: `None` propagates as `err`. -/
def bindOpt {α β : Type} (r : Option α × BitReader)
    (f : α → BitReader → RResult β × BitReader) : RResult β × BitReader :=
  match r with
  | (none, st) => (RResult.err, st)
  | (some a, st) => f a st

/-- Sequencing of two panic-tracking computations: `err` and `fatal`
propagate. -/
def bindRes {α β : Type} (r : RResult α × BitReader)
    (f : α → BitReader → RResult β × BitReader) : RResult β × BitReader :=
  match r with
  | (RResult.err, st) => (RResult.err, st)
  | (RResult.fatal, st) => (RResult.fatal, st)
  | (RResult.val a, st) => f a st

/-- The fixed 16-byte trailing sentinel of the R2000 header
(src/dwg.rs lines 72-75). -/
def hdrSentinel : List Nat :=
  [0x95, 0xA0, 0x4E, 0x28, 0x99, 0x82, 0x1A, 0xE5,
   0x5E, 0x41, 0xE0, 0x5F, 0x9D, 0x3A, 0x4D, 0x00]

/-- Reserved-byte loop of `read_r2000_header` (src/dwg.rs lines 45-49):
reads `k` raw chars, panicking (`assert_eq!(res, 0)`) on the first non-zero
one; `?` propagates exhaustion as `err`. -/
def checkZeroBytes : Nat → BitReader → RResult Unit × BitReader
  | 0, st => (RResult.val (), st)
  | k + 1, st =>
    match read_raw_char st with
    | (none, st') => (RResult.err, st')
    | (some c, st') =>
      if c = 0 then checkZeroBytes k st' else (RResult.fatal, st')

/-- Section-locator loop of `read_r2000_header` (src/dwg.rs lines 62-66):
reads `k` records of (unused char, seeker long, size long), all values
discarded. -/
def readLocatorRecords : Nat → BitReader → RResult Unit × BitReader
  | 0, st => (RResult.val (), st)
  | k + 1, st =>
    match read_raw_char st with
    | (none, s1) => (RResult.err, s1)
    | (some _, s1) =>
      match read_raw_long s1 with
      | (none, s2) => (RResult.err, s2)
      | (some _, s2) =>
        match read_raw_long s2 with
        | (none, s3) => (RResult.err, s3)
        | (some _, s3) => readLocatorRecords k s3

/-- Sentinel loop of `read_r2000_header` (src/dwg.rs lines 78-80): for each
expected byte, `assert_eq!(byte, read_raw_char()? as u8)` — exhaustion is
`err` via `?`, a mismatch is a panic (`fatal`). -/
def checkSentinelBytes : List Nat → BitReader → RResult Unit × BitReader
  | [], st => (RResult.val (), st)
  | b :: rest, st =>
    match read_raw_char st with
    | (none, st') => (RResult.err, st')
    | (some c, st') =>
      if b = i8_as_u8 c then checkSentinelBytes rest st'
      else (RResult.fatal, st')

/-- Embedding of `read_r2000_header` (src/dwg.rs lines 38-82): magic +
version resolution, five asserted-zero reserved bytes, one unchecked byte,
an asserted literal-1 byte (note: `assert_eq!(read_raw_char(), Some(1))`
also panics — not `err` — when the stream ends there), image-sentinel
seeker, one unchecked byte, the section-locator table, the CRC slot, and
the 16-byte trailing sentinel. -/
def read_r2000_header (st : BitReader) : RResult Unit × BitReader :=
  bindOpt (read_version st) fun version st =>
  bindRes (checkZeroBytes 5 (BitReader.set_version version st)) fun _ st =>
  bindOpt (read_raw_char st) fun _ st =>
  (match read_raw_char st with
   | (c, st) =>
     if c = some 1 then
       bindOpt (read_raw_long st) fun _image_sentinel_seeker st =>
       bindOpt (read_raw_char st) fun _ st =>
       bindOpt (read_raw_long st) fun n_records st =>
       bindRes (readLocatorRecords n_records.toNat st) fun _ st =>
       bindOpt (read_raw_short st) fun _crc st =>
       checkSentinelBytes hdrSentinel st
     else (RResult.fatal, st))

/-- Value of a byte list viewed as a base-256 little-endian numeral (first
list element in the low-order bits). -/
def bytesVal : List Nat → Nat
  | [] => 0
  | b :: rest => b + 256 * bytesVal rest

/-- Number of bits still readable from a reader state: the unconsumed bits
of the current byte plus eight per byte not yet pulled from the source. -/
def streamLen (st : BitReader) : Nat :=
  (8 - st.cur_bit) + 8 * st.bytes.length

/-- Value of the entire remaining bit stream of a reader state, as a single
natural number with the next-to-be-read bit in position 0. -/
def streamVal (st : BitReader) : Nat :=
  (st.cur_byte >>> st.cur_bit) + 2 ^ (8 - st.cur_bit) * bytesVal st.bytes

/-- Well-formedness of a reader state: the current byte and all pending
bytes are octets, and the bit offset is at most 8.  Every state reachable
from `BitReader.new` over a byte list satisfies this. -/
def BitReader.Valid (st : BitReader) : Prop :=
  st.cur_byte < 256 ∧ st.cur_bit ≤ 8 ∧ ∀ b ∈ st.bytes, b < 256

instance (st : BitReader) : Decidable st.Valid := by
  unfold BitReader.Valid
  infer_instance

/-- Pushing `bindRes` through a branch. -/
theorem bindRes_ite {α β : Type} (c : Prop) [Decidable c]
    (a b : RResult α × BitReader) (f : α → BitReader → RResult β × BitReader) :
    bindRes (if c then a else b) f = if c then bindRes a f else bindRes b f :=
  apply_ite (fun r => bindRes r f) c a b

/-- Pushing `bindOpt` through a branch. -/
theorem bindOpt_ite {α β : Type} (c : Prop) [Decidable c]
    (a b : Option α × BitReader) (f : α → BitReader → RResult β × BitReader) :
    bindOpt (if c then a else b) f = if c then bindOpt a f else bindOpt b f :=
  apply_ite (fun r => bindOpt r f) c a b

/-- Sequencing a successful optional read. -/
theorem bindOpt_some {α β : Type} (a : α) (st : BitReader)
    (f : α → BitReader → RResult β × BitReader) :
    bindOpt (some a, st) f = f a st := rfl

/-- Sequencing a failed optional read. -/
theorem bindOpt_none {α β : Type} (st : BitReader)
    (f : α → BitReader → RResult β × BitReader) :
    bindOpt (none, st) f = (RResult.err, st) := rfl

/-- Sequencing a successful step. -/
theorem bindRes_val {α β : Type} (a : α) (st : BitReader)
    (f : α → BitReader → RResult β × BitReader) :
    bindRes (RResult.val a, st) f = f a st := rfl

/-- Sequencing an exhausted step. -/
theorem bindRes_err {α β : Type} (st : BitReader)
    (f : α → BitReader → RResult β × BitReader) :
    bindRes (RResult.err, st) f = (RResult.err, st) := rfl

/-- Sequencing a panicking step. -/
theorem bindRes_fatal {α β : Type} (st : BitReader)
    (f : α → BitReader → RResult β × BitReader) :
    bindRes (RResult.fatal, st) f = (RResult.fatal, st) := rfl

/-- Pushing the first projection through a branch. -/
theorem fst_ite {α β : Type} (c : Prop) [Decidable c] (a b : α × β) :
    (if c then a else b).1 = if c then a.1 else b.1 :=
  apply_ite Prod.fst c a b

/-- Pushing the second projection through a branch. -/
theorem snd_ite {α β : Type} (c : Prop) [Decidable c] (a b : α × β) :
    (if c then a else b).2 = if c then a.2 else b.2 :=
  apply_ite Prod.snd c a b

/-- Pushing the version field through a branch. -/
theorem version_ite (c : Prop) [Decidable c] (a b : BitReader) :
    (if c then a else b).version = if c then a.version else b.version :=
  apply_ite BitReader.version c a b

/-- C6, counterexample to the claim as stated: a header stream that is
well-formed except that its first must-be-zero reserved byte is 1 makes
`read_r2000_header` hit `assert_eq!(res, 0)`, i.e. a panic (modelled
`RResult.fatal`) — not a typed `MalformedHeader` error propagated to the
caller as a result (the source has no such error type; its only typed
failure channel is `Option`, modelled `RResult.err`). -/
theorem claim_C6_counterexample :
    (read_r2000_header (BitReader.new
      (magicAC1015 ++ [1, 0, 0, 0, 0] ++ [0] ++ [1] ++ [0, 0, 0, 0] ++ [0]
        ++ [0, 0, 0, 0] ++ [0, 0] ++ hdrSentinel))).1 = RResult.fatal
  ∧ RResult.fatal ≠ (RResult.err : RResult Unit) := by
  decide

end Dwg

namespace Dwg

/-! Helper lemmas about the bit-level arithmetic of `readBitsAux`. -/

/-- Masking with an all-ones pattern of width `k` is reduction mod `2 ^ k`. -/
theorem maskMod (k x : Nat) : 2 ^ k - 1 &&& x = x % 2 ^ k := by
  rw [Nat.and_comm]
  exact Nat.and_pow_two_sub_one_eq_mod x k

/-- Masking a byte-sized value with `0xFF` is the identity. -/
theorem mask255 {x : Nat} (h : x < 256) : 255 &&& x = x := by
  have hm := maskMod 8 x
  norm_num at hm
  rw [hm, Nat.mod_eq_of_lt h]

/-- Bitwise-or of a `k`-bit value with a value shifted past those `k` bits
is plain addition. -/
theorem lor_shl {a : Nat} (b k : Nat) (h : a < 2 ^ k) :
    a ||| b <<< k = a + 2 ^ k * b := by
  rw [Nat.shiftLeft_eq, Nat.mul_comm b, Nat.lor_comm,
    ← Nat.mul_add_lt_is_or h, Nat.add_comm]

/-- Splitting a division by `2 ^ k` across a sum whose second summand is a
multiple of `2 ^ r` with `k ≤ r`. -/
theorem div_pow_split (b R k r : Nat) (h : k ≤ r) :
    (b + 2 ^ r * R) / 2 ^ k = b / 2 ^ k + 2 ^ (r - k) * R := by
  have e : 2 ^ r = 2 ^ k * 2 ^ (r - k) := by
    rw [← pow_add]
    congr 1
    omega
  rw [e, Nat.mul_assoc, Nat.add_mul_div_left _ _ (Nat.two_pow_pos k)]

/-- Reduction mod `2 ^ k` of a sum whose second summand is a multiple of
`2 ^ r` with `k ≤ r`. -/
theorem mod_pow_split (b R k r : Nat) (h : k ≤ r) :
    (b + 2 ^ r * R) % 2 ^ k = b % 2 ^ k := by
  have e : 2 ^ r = 2 ^ k * 2 ^ (r - k) := by
    rw [← pow_add]
    congr 1
    omega
  rw [e, Nat.mul_assoc, Nat.mul_comm (2 ^ k), Nat.add_mul_mod_self_right]

/-- Recombination step for the accumulator of `readBitsAux`: folding a
`k`-bit chunk into the accumulator and then the remaining `n - k` bits
equals folding all `n` bits at once. -/
theorem acc_recombine (S res N n k : Nat) (hk1 : 1 ≤ k) (hkn : k ≤ n)
    (hnN : n ≤ N) :
    res + 2 ^ (N - n) * (S % 2 ^ k) + 2 ^ (N - (n - k)) * (S / 2 ^ k % 2 ^ (n - k))
      = res + 2 ^ (N - n) * (S % 2 ^ n) := by
  have e1 : N - (n - k) = (N - n) + k := by omega
  have e2 : (2 : Nat) ^ n = 2 ^ k * 2 ^ (n - k) := by
    rw [← pow_add]
    congr 1
    omega
  rw [e1, pow_add, e2, Nat.mod_mul]
  ring

/-- Bound preservation for the accumulator of `readBitsAux`. -/
theorem acc_bound (res c N n k : Nat) (hres : res < 2 ^ (N - n)) (hc : c < 2 ^ k)
    (hkn : k ≤ n) (hnN : n ≤ N) :
    res + 2 ^ (N - n) * c < 2 ^ (N - (n - k)) := by
  have e1 : N - (n - k) = (N - n) + k := by omega
  rw [e1, pow_add]
  have h1 : res + 2 ^ (N - n) * c < 2 ^ (N - n) * (c + 1) := by
    have e : 2 ^ (N - n) * (c + 1) = 2 ^ (N - n) * c + 2 ^ (N - n) := by ring
    omega
  have h2 : 2 ^ (N - n) * (c + 1) ≤ 2 ^ (N - n) * 2 ^ k :=
    Nat.mul_le_mul_left _ hc
  omega

/-- Success characterization of the `read_bits` loop: when at least `n` bits
remain, the loop succeeds, adds the low `n` stream bits (shifted into
position `N - n`) to the accumulator, and advances the stream by exactly
`n` bits, preserving validity and the stored version. -/
theorem readBitsAux_ok (N : Nat) :
    ∀ fuel n res st, st.Valid → n ≤ fuel → n ≤ N → n ≤ streamLen st →
      res < 2 ^ (N - n) →
      ∃ st', readBitsAux N fuel res n st
          = (some (res + 2 ^ (N - n) * (streamVal st % 2 ^ n)), st')
        ∧ st'.Valid ∧ streamVal st' = streamVal st / 2 ^ n
        ∧ streamLen st' = streamLen st - n ∧ st'.version = st.version := by
  intro fuel
  induction fuel with
  | zero =>
    intro n res st hv hnf hnN hlen hres
    have hn0 : n = 0 := by omega
    subst hn0
    exact ⟨st, by simp [readBitsAux, Nat.mod_one], hv, by simp, by simp, rfl⟩
  | succ f ih =>
    intro n res st hv hnf hnN hlen hres
    match n with
    | 0 =>
      exact ⟨st, by simp [readBitsAux, Nat.mod_one], hv, by simp, by simp, rfl⟩
    | m + 1 =>
      obtain ⟨cb, bit, bys, ver⟩ := st
      obtain ⟨hcb, hbit, hbytes⟩ := hv
      simp only at hcb hbit hbytes
      by_cases hre : 8 - bit = 0
      · -- the current octet is exhausted: pull one byte from the source
        have hbit8 : bit = 8 := by omega
        subst hbit8
        cases bys with
        | nil =>
          exfalso
          simp [streamLen] at hlen
        | cons b rest =>
          have hb : b < 256 := hbytes b (List.mem_cons_self b rest)
          set k := min (m + 1) 8 with hkdef
          have hk1 : 1 ≤ k := by omega
          have hk8 : k ≤ 8 := by omega
          have hkm : k ≤ m + 1 := by omega
          have step : readBitsAux N (f + 1) res (m + 1) ⟨cb, 8, b :: rest, ver⟩
              = readBitsAux N f
                  (res ||| (2 ^ k - 1 &&& (b >>> 0)) <<< (N - (m + 1)))
                  (m + 1 - k) ⟨b, 0 + k, rest, ver⟩ := rfl
          rw [step, Nat.shiftRight_zero, maskMod,
            lor_shl _ _ hres]
          have hR : ∀ x ∈ rest, x < 256 := by
            intro x hx
            exact hbytes x (List.mem_cons_of_mem _ hx)
          have h0 : cb >>> 8 = 0 := by
            rw [Nat.shiftRight_eq_div_pow]
            exact Nat.div_eq_of_lt (by omega)
          have hS : streamVal ⟨cb, 8, b :: rest, ver⟩
              = b + 2 ^ 8 * bytesVal rest := by
            simp only [streamVal, bytesVal, h0]
            norm_num
          have hS1 : streamVal ⟨b, 0 + k, rest, ver⟩
              = streamVal ⟨cb, 8, b :: rest, ver⟩ / 2 ^ k := by
            rw [hS, div_pow_split _ _ _ _ hk8]
            simp only [streamVal, Nat.shiftRight_eq_div_pow]
            norm_num
          have hchunk : b % 2 ^ k = streamVal ⟨cb, 8, b :: rest, ver⟩ % 2 ^ k := by
            rw [hS, mod_pow_split _ _ _ _ hk8]
          have hLst : streamLen ⟨cb, 8, b :: rest, ver⟩ = 8 + 8 * rest.length := by
            simp [streamLen]
            omega
          have hLst1 : streamLen ⟨b, 0 + k, rest, ver⟩
              = (8 - k) + 8 * rest.length := by
            simp [streamLen]
          rw [hLst] at hlen
          obtain ⟨st', heq, hv', hSv', hSl', hver'⟩ :=
            ih (m + 1 - k) (res + 2 ^ (N - (m + 1)) * (b % 2 ^ k))
              ⟨b, 0 + k, rest, ver⟩
              ⟨hb, by show 0 + k ≤ 8; omega, hR⟩ (by omega) (by omega)
              (by rw [hLst1]; omega)
              (acc_bound _ _ _ _ _ hres (Nat.mod_lt _ (Nat.two_pow_pos k)) hkm hnN)
          refine ⟨st', ?_, hv', ?_, ?_, hver'⟩
          · rw [heq, hchunk, hS1,
              acc_recombine (streamVal ⟨cb, 8, b :: rest, ver⟩) res N (m + 1) k
                hk1 hkm hnN]
          · rw [hSv', hS1, Nat.div_div_eq_div_mul, ← pow_add]
            congr 2
            omega
          · rw [hSl', hLst1, hLst]
            omega
      · -- bits remain in the current octet
        set k := min (m + 1) (8 - bit) with hkdef
        have hk1 : 1 ≤ k := by omega
        have hkr : k ≤ 8 - bit := by omega
        have hkm : k ≤ m + 1 := by omega
        rw [readBitsAux, if_neg hre]
        simp only []
        rw [maskMod, lor_shl _ _ hres]
        have hS : streamVal ⟨cb, bit, bys, ver⟩
            = (cb >>> bit) + 2 ^ (8 - bit) * bytesVal bys := rfl
        have hS1 : streamVal ⟨cb, bit + k, bys, ver⟩
            = streamVal ⟨cb, bit, bys, ver⟩ / 2 ^ k := by
          rw [hS, div_pow_split _ _ _ _ hkr]
          have he : 8 - (bit + k) = 8 - bit - k := by omega
          simp only [streamVal, he, Nat.shiftRight_eq_div_pow,
            Nat.div_div_eq_div_mul, ← pow_add]
        have hchunk : (cb >>> bit) % 2 ^ k
            = streamVal ⟨cb, bit, bys, ver⟩ % 2 ^ k := by
          rw [hS, mod_pow_split _ _ _ _ hkr]
        have hLst : streamLen ⟨cb, bit, bys, ver⟩
            = (8 - bit) + 8 * bys.length := rfl
        have hLst1 : streamLen ⟨cb, bit + k, bys, ver⟩
            = (8 - (bit + k)) + 8 * bys.length := rfl
        rw [hLst] at hlen
        obtain ⟨st', heq, hv', hSv', hSl', hver'⟩ :=
          ih (m + 1 - k) (res + 2 ^ (N - (m + 1)) * ((cb >>> bit) % 2 ^ k))
            ⟨cb, bit + k, bys, ver⟩
            ⟨hcb, by show bit + k ≤ 8; omega, hbytes⟩ (by omega) (by omega)
            (by rw [hLst1]; omega)
            (acc_bound _ _ _ _ _ hres (Nat.mod_lt _ (Nat.two_pow_pos k)) hkm hnN)
        refine ⟨st', ?_, hv', ?_, ?_, hver'⟩
        · rw [heq, hchunk, hS1,
            acc_recombine (streamVal ⟨cb, bit, bys, ver⟩) res N (m + 1) k
              hk1 hkm hnN]
        · rw [hSv', hS1, Nat.div_div_eq_div_mul, ← pow_add]
          congr 2
          omega
        · rw [hSl', hLst1, hLst]
          omega

/-- Failure characterization of the `read_bits` loop: when fewer bits remain
than requested, the loop returns `none`, and it has drained the byte source
completely (the cursor is not rewound). -/
theorem readBitsAux_exhaust (N : Nat) :
    ∀ fuel n res st, st.Valid → n ≤ fuel → streamLen st < n →
      (readBitsAux N fuel res n st).1 = none
      ∧ ((readBitsAux N fuel res n st).2).bytes = [] := by
  intro fuel
  induction fuel with
  | zero =>
    intro n res st hv hnf hlen
    have hn0 : n = 0 := by omega
    subst hn0
    exact absurd hlen (by omega)
  | succ f ih =>
    intro n res st hv hnf hlen
    match n with
    | 0 => exact absurd hlen (by omega)
    | m + 1 =>
      obtain ⟨cb, bit, bys, ver⟩ := st
      obtain ⟨hcb, hbit, hbytes⟩ := hv
      simp only at hcb hbit hbytes
      by_cases hre : 8 - bit = 0
      · have hbit8 : bit = 8 := by omega
        subst hbit8
        cases bys with
        | nil => exact ⟨rfl, rfl⟩
        | cons b rest =>
          have hb : b < 256 := hbytes b (List.mem_cons_self b rest)
          set k := min (m + 1) 8 with hkdef
          have step : readBitsAux N (f + 1) res (m + 1) ⟨cb, 8, b :: rest, ver⟩
              = readBitsAux N f
                  (res ||| (2 ^ k - 1 &&& (b >>> 0)) <<< (N - (m + 1)))
                  (m + 1 - k) ⟨b, 0 + k, rest, ver⟩ := rfl
          rw [step]
          have hLst : streamLen ⟨cb, 8, b :: rest, ver⟩ = 8 + 8 * rest.length := by
            simp [streamLen]
            omega
          rw [hLst] at hlen
          have hL1 : streamLen ⟨b, 0 + k, rest, ver⟩
              = (8 - k) + 8 * rest.length := by
            simp [streamLen]
          exact ih (m + 1 - k) _ ⟨b, 0 + k, rest, ver⟩
            ⟨hb, by show 0 + k ≤ 8; omega,
              fun x hx => hbytes x (List.mem_cons_of_mem _ hx)⟩
            (by omega) (by rw [hL1]; omega)
      · set k := min (m + 1) (8 - bit) with hkdef
        rw [readBitsAux, if_neg hre]
        simp only []
        have hLst : streamLen ⟨cb, bit, bys, ver⟩
            = (8 - bit) + 8 * bys.length := rfl
        rw [hLst] at hlen
        have hL1 : streamLen ⟨cb, bit + k, bys, ver⟩
            = (8 - (bit + k)) + 8 * bys.length := rfl
        exact ih (m + 1 - k) _ ⟨cb, bit + k, bys, ver⟩
          ⟨hcb, by show bit + k ≤ 8; omega, hbytes⟩
          (by omega) (by rw [hL1]; omega)

/-- The `read_bits` loop never touches the stored version, in success or in
failure. -/
theorem readBitsAux_version (N : Nat) :
    ∀ fuel n res st, ((readBitsAux N fuel res n st).2).version = st.version := by
  intro fuel
  induction fuel with
  | zero =>
    intro n res st
    match n with
    | 0 => rfl
    | m + 1 => rfl
  | succ f ih =>
    intro n res st
    match n with
    | 0 => rfl
    | m + 1 =>
      obtain ⟨cb, bit, bys, ver⟩ := st
      by_cases hre : 8 - bit = 0
      · rw [readBitsAux, if_pos hre]
        cases bys with
        | nil => rfl
        | cons b rest => exact ih _ _ _
      · rw [readBitsAux, if_neg hre]
        exact ih _ _ _

/-- Success contract of `read_bits`: with at least `n` bits remaining, it
returns the low `n` bits of the remaining stream value and advances the
stream by exactly `n` bits. -/
theorem read_bits_ok (n : Nat) (st : BitReader) (hv : st.Valid)
    (hlen : n ≤ streamLen st) :
    ∃ st', read_bits n st = (some (streamVal st % 2 ^ n), st')
      ∧ st'.Valid ∧ streamVal st' = streamVal st / 2 ^ n
      ∧ streamLen st' = streamLen st - n ∧ st'.version = st.version := by
  obtain ⟨st', heq, h⟩ :=
    readBitsAux_ok n n n 0 st hv le_rfl le_rfl hlen
      (Nat.two_pow_pos _)
  refine ⟨st', ?_, h⟩
  rw [read_bits, heq]
  norm_num

/-- Failure contract of `read_bits`: with fewer than `n` bits remaining, it
returns `none` and has drained the byte source. -/
theorem read_bits_exhaust (n : Nat) (st : BitReader) (hv : st.Valid)
    (hlen : streamLen st < n) :
    (read_bits n st).1 = none ∧ ((read_bits n st).2).bytes = [] :=
  readBitsAux_exhaust n n n 0 st hv le_rfl hlen

/-- Version preservation of `read_bits`. -/
theorem read_bits_version (n : Nat) (st : BitReader) :
    ((read_bits n st).2).version = st.version :=
  readBitsAux_version n n n 0 st

/-! Byte-aligned evaluation lemmas: every read performed by the header
protocol starts and ends on an octet boundary (`cur_bit = 8`), so reads of
8, 16 and 32 bits can be described byte by byte. -/

/-- Reading 8 bits from a byte-aligned state yields the next byte. -/
theorem read_bits8_cons (cb b : Nat) (hb : b < 256) (rest : List Nat)
    (v : DWGVersion) :
    read_bits 8 ⟨cb, 8, b :: rest, v⟩ = (some b, ⟨b, 8, rest, v⟩) := by
  simp [read_bits, readBitsAux, mask255 hb]

/-- Reading 16 bits from a byte-aligned state yields the next two bytes,
first byte in the low half. -/
theorem read_bits16_cons (cb b0 b1 : Nat) (h0 : b0 < 256) (h1 : b1 < 256)
    (rest : List Nat) (v : DWGVersion) :
    read_bits 16 ⟨cb, 8, b0 :: b1 :: rest, v⟩
      = (some (b0 ||| b1 <<< 8), ⟨b1, 8, rest, v⟩) := by
  simp [read_bits, readBitsAux, mask255 h0, mask255 h1]

/-- Reading 32 bits from a byte-aligned state yields the next four bytes,
earlier bytes in lower positions. -/
theorem read_bits32_cons (cb b0 b1 b2 b3 : Nat) (h0 : b0 < 256)
    (h1 : b1 < 256) (h2 : b2 < 256) (h3 : b3 < 256) (rest : List Nat)
    (v : DWGVersion) :
    read_bits 32 ⟨cb, 8, b0 :: b1 :: b2 :: b3 :: rest, v⟩
      = (some (b0 ||| b1 <<< 8 ||| b2 <<< 16 ||| b3 <<< 24), ⟨b3, 8, rest, v⟩) := by
  simp [read_bits, readBitsAux, mask255 h0, mask255 h1, mask255 h2, mask255 h3]

/-- `read_raw_char` on a byte-aligned state. -/
theorem read_raw_char_cons (cb b : Nat) (hb : b < 256) (rest : List Nat)
    (v : DWGVersion) :
    read_raw_char ⟨cb, 8, b :: rest, v⟩ = (some (toSigned 8 b), ⟨b, 8, rest, v⟩) := by
  rw [read_raw_char, read_bits8_cons cb b hb rest v]
  rfl

/-- `read_raw_short` on a byte-aligned state. -/
theorem read_raw_short_cons (cb b0 b1 : Nat) (h0 : b0 < 256) (h1 : b1 < 256)
    (rest : List Nat) (v : DWGVersion) :
    read_raw_short ⟨cb, 8, b0 :: b1 :: rest, v⟩
      = (some (toSigned 16 (b0 ||| b1 <<< 8)), ⟨b1, 8, rest, v⟩) := by
  rw [read_raw_short, read_bits16_cons cb b0 b1 h0 h1 rest v]
  rfl

/-- `read_raw_long` on a byte-aligned state. -/
theorem read_raw_long_cons (cb b0 b1 b2 b3 : Nat) (h0 : b0 < 256)
    (h1 : b1 < 256) (h2 : b2 < 256) (h3 : b3 < 256) (rest : List Nat)
    (v : DWGVersion) :
    read_raw_long ⟨cb, 8, b0 :: b1 :: b2 :: b3 :: rest, v⟩
      = (some (toSigned 32 (b0 ||| b1 <<< 8 ||| b2 <<< 16 ||| b3 <<< 24)),
         ⟨b3, 8, rest, v⟩) := by
  rw [read_raw_long, read_bits32_cons cb b0 b1 b2 b3 h0 h1 h2 h3 rest v]
  rfl

/-- `read_version` on a byte-aligned state: consumes exactly the six magic
bytes and resolves them, leaving the stored version untouched. -/
theorem read_version_cons (cb m0 m1 m2 m3 m4 m5 : Nat) (h0 : m0 < 256)
    (h1 : m1 < 256) (h2 : m2 < 256) (h3 : m3 < 256) (h4 : m4 < 256)
    (h5 : m5 < 256) (rest : List Nat) (v : DWGVersion) :
    read_version ⟨cb, 8, m0 :: m1 :: m2 :: m3 :: m4 :: m5 :: rest, v⟩
      = (DWGVersion.from_magic [m0, m1, m2, m3, m4, m5], ⟨m5, 8, rest, v⟩) := by
  simp only [read_version, read_bits8_cons, h0, h1, h2, h3, h4, h5]

/-- Interpreting a byte as `i8` and casting back with `as u8` is the
identity. -/
theorem i8_u8_roundtrip {b : Nat} (hb : b < 256) : i8_as_u8 (toSigned 8 b) = b := by
  unfold toSigned i8_as_u8
  norm_num [Nat.mod_eq_of_lt hb]
  split_ifs with h <;> omega

/-- The `i8` view of a byte equals a small literal exactly when the byte
does. -/
theorem toSigned8_eq_iff {b c : Nat} (hb : b < 256) (hc : c < 128) :
    toSigned 8 b = (c : Int) ↔ b = c := by
  unfold toSigned
  norm_num [Nat.mod_eq_of_lt hb]
  split_ifs with h <;> omega

/-- The `i8` view of a byte is zero exactly for the zero byte. -/
theorem toSigned8_eq_zero {b : Nat} (hb : b < 256) :
    toSigned 8 b = (0 : Int) ↔ b = 0 := by
  have h := toSigned8_eq_iff hb (show 0 < 128 by norm_num)
  simpa using h

/-- The `i8` view of a byte is one exactly for the byte 1. -/
theorem toSigned8_eq_one {b : Nat} (hb : b < 256) :
    toSigned 8 b = (1 : Int) ↔ b = 1 := by
  have h := toSigned8_eq_iff hb (show 1 < 128 by norm_num)
  simpa using h

/-- `read_version` never touches the stored version. -/
theorem read_version_version (st : BitReader) :
    ((read_version st).2).version = st.version := by
  have hv0 := read_bits_version 8 st
  rcases h0 : read_bits 8 st with ⟨o0, s0⟩
  rw [h0] at hv0
  rw [read_version, h0]
  cases o0 with
  | none => exact hv0
  | some b0 =>
    have hs0 : s0.version = st.version := hv0
    have hv1 := read_bits_version 8 s0
    rcases h1 : read_bits 8 s0 with ⟨o1, s1⟩
    rw [h1] at hv1
    dsimp only
    rw [h1]
    cases o1 with
    | none => exact hv1.trans hs0
    | some b1 =>
      have hs1 : s1.version = st.version := hv1.trans hs0
      have hv2 := read_bits_version 8 s1
      rcases h2 : read_bits 8 s1 with ⟨o2, s2⟩
      rw [h2] at hv2
      dsimp only
      rw [h2]
      cases o2 with
      | none => exact hv2.trans hs1
      | some b2 =>
        have hs2 : s2.version = st.version := hv2.trans hs1
        have hv3 := read_bits_version 8 s2
        rcases h3 : read_bits 8 s2 with ⟨o3, s3⟩
        rw [h3] at hv3
        dsimp only
        rw [h3]
        cases o3 with
        | none => exact hv3.trans hs2
        | some b3 =>
          have hs3 : s3.version = st.version := hv3.trans hs2
          have hv4 := read_bits_version 8 s3
          rcases h4 : read_bits 8 s3 with ⟨o4, s4⟩
          rw [h4] at hv4
          dsimp only
          rw [h4]
          cases o4 with
          | none => exact hv4.trans hs3
          | some b4 =>
            have hs4 : s4.version = st.version := hv4.trans hs3
            have hv5 := read_bits_version 8 s4
            rcases h5 : read_bits 8 s4 with ⟨o5, s5⟩
            rw [h5] at hv5
            dsimp only
            rw [h5]
            cases o5 with
            | none => exact hv5.trans hs4
            | some b5 => exact hv5.trans hs4

/-! Claim theorems. -/

/-- C1: on the byte stream [0xFF, 0xDD, 0xCC, 0xBB], a fresh cursor returns
read_bits(8) = 0xFF, then read_bits(16) = 0xCCDD, then read_bits(5) = 0x1B,
then read_bits(3) = 0x5, and then read_bits(1) fails (StreamExhausted,
modelled as `none`): bits are consumed low-bit-first within each octet, with
earlier-consumed chunks in the low-order bits of the result.  The successive
cursor states are pinned explicitly, so the five calls chain as stated. -/
theorem claim_C1_read_bits_vectors :
    read_bits 8 (BitReader.new [0xFF, 0xDD, 0xCC, 0xBB])
        = (some 0xFF, ⟨0xFF, 8, [0xDD, 0xCC, 0xBB], DWGVersion.AC1015⟩)
  ∧ read_bits 16 ⟨0xFF, 8, [0xDD, 0xCC, 0xBB], DWGVersion.AC1015⟩
        = (some 0xCCDD, ⟨0xCC, 8, [0xBB], DWGVersion.AC1015⟩)
  ∧ read_bits 5 ⟨0xCC, 8, [0xBB], DWGVersion.AC1015⟩
        = (some 0x1B, ⟨0xBB, 5, [], DWGVersion.AC1015⟩)
  ∧ read_bits 3 ⟨0xBB, 5, [], DWGVersion.AC1015⟩
        = (some 0x5, ⟨0xBB, 8, [], DWGVersion.AC1015⟩)
  ∧ (read_bits 1 ⟨0xBB, 8, [], DWGVersion.AC1015⟩).1 = none := by
  decide

/-- C2: for every valid cursor state and every n with 1 ≤ n ≤ 32, if fewer
than n bits remain, read_bits(n) fails (StreamExhausted, modelled `none`)
and returns no truncated or partial value; the bytes pulled from the source
during the failing call stay consumed — the failing call drains the byte
source and the cursor is not rewound. -/
theorem claim_C2_exhaust_no_partial (st : BitReader) (n : Nat) (hv : st.Valid)
    (_h1 : 1 ≤ n) (_h32 : n ≤ 32) (hlen : streamLen st < n) :
    (read_bits n st).1 = none ∧ ((read_bits n st).2).bytes = [] :=
  read_bits_exhaust n st hv hlen

/-- Witness for C2 at the one-byte stream [0xAB] with n = 16. -/
theorem claim_C2_exhaust_no_partial_witness :
    (BitReader.new [0xAB]).Valid ∧ 1 ≤ 16 ∧ 16 ≤ 32
      ∧ streamLen (BitReader.new [0xAB]) < 16
      ∧ ((read_bits 16 (BitReader.new [0xAB])).1 = none
          ∧ ((read_bits 16 (BitReader.new [0xAB])).2).bytes = []) :=
  ⟨by decide, by decide, by decide, by decide,
    claim_C2_exhaust_no_partial (BitReader.new [0xAB]) 16 (by decide) (by decide)
      (by decide) (by decide)⟩

/-- C3: for every valid cursor with at least a + b remaining bits and
1 ≤ a, 1 ≤ b, a + b ≤ 32, reading a bits and then b bits and combining the
two results little-endian (second result shifted left by a) equals the
single read of a + b bits from the same starting state. -/
theorem claim_C3_read_concat (st : BitReader) (a b : Nat) (hv : st.Valid)
    (ha : 1 ≤ a) (hb : 1 ≤ b) (hab : a + b ≤ 32) (hlen : a + b ≤ streamLen st) :
    ∃ v1 v2 st1 st2 st12,
      read_bits a st = (some v1, st1) ∧ read_bits b st1 = (some v2, st2)
      ∧ read_bits (a + b) st = (some (v1 ||| v2 <<< a), st12) := by
  obtain ⟨st1, he1, hv1, hS1, hL1, _⟩ := read_bits_ok a st hv (by omega)
  obtain ⟨st2, he2, _, _, _, _⟩ := read_bits_ok b st1 hv1 (by rw [hL1]; omega)
  obtain ⟨st12, he12, _, _, _, _⟩ := read_bits_ok (a + b) st hv hlen
  have hcomb : streamVal st % 2 ^ (a + b)
      = streamVal st % 2 ^ a ||| (streamVal st1 % 2 ^ b) <<< a := by
    rw [pow_add, Nat.mod_mul, hS1,
      lor_shl _ _ (Nat.mod_lt _ (Nat.two_pow_pos a))]
  exact ⟨_, _, st1, st2, st12, he1, he2, by rw [he12, hcomb]⟩

/-- Witness for C3 at the stream [0xA7, 0x3C] with a = 5, b = 7. -/
theorem claim_C3_read_concat_witness :
    ∃ v1 v2 st1 st2 st12,
      read_bits 5 (BitReader.new [0xA7, 0x3C]) = (some v1, st1)
      ∧ read_bits 7 st1 = (some v2, st2)
      ∧ read_bits (5 + 7) (BitReader.new [0xA7, 0x3C]) = (some (v1 ||| v2 <<< 5), st12) :=
  claim_C3_read_concat (BitReader.new [0xA7, 0x3C]) 5 7 (by decide) (by decide)
    (by decide) (by decide) (by decide)

/-- C4, evaluation at the failing input: a variable long-long whose selector
is 0 and whose two raw 32-bit words are 0xFFFFFFFF and 0x00000000 decodes to
-1, because `read_raw_long()? as u64` sign-extends the first word and the
`|` floods the high word with ones; the little-endian combination the claim
(and `read_raw_longlong`, which zero-extends) prescribes for these words is
4294967295, not -1. -/
theorem claim_C4_bitlonglong_eval :
    (read_bitlonglong (BitReader.new [0xFC, 0xFF, 0xFF, 0xFF, 0x03, 0, 0, 0, 0])).1
      = some (-1 : Int)
  ∧ (read_raw_long
      ((read_bits 2 (BitReader.new [0xFC, 0xFF, 0xFF, 0xFF, 0x03, 0, 0, 0, 0])).2)).1
      = some (-1 : Int)
  ∧ (read_raw_long ((read_raw_long
      ((read_bits 2 (BitReader.new [0xFC, 0xFF, 0xFF, 0xFF, 0x03, 0, 0, 0, 0])).2)).2)).1
      = some (0 : Int)
  ∧ toSigned 64 ((0 <<< 32) ||| 0xFFFFFFFF) = 4294967295
  ∧ (-1 : Int) ≠ 4294967295 := by
  decide

/-- C5, counterexample to the claim as stated: a stream whose first two bits
are ones makes `read_bitdouble` reach selector 3, which in the source is
`unreachable!()`, i.e. a panic (modelled `RResult.fatal`) — not a typed
`InvalidSelector` error value propagated as a result (the source has no such
error type; its only typed failure channel is `Option`). -/
theorem claim_C5_counterexample :
    (read_bitdouble (BitReader.new [0x03])).1 = RResult.fatal := by
  decide

/-- C5 amended: for every valid cursor with at least 2 remaining bits, the
variable-double decoder's 2-bit selector dispatches as follows — selector 3
panics via `unreachable!()` (modelled `fatal`); selector 1 returns the bit
pattern of 1.0; selector 2 returns the bit pattern of 0.0; selector 0 (with
64 more bits available) returns the 64-bit pattern assembled from two 32-bit
reads, low word first. -/
theorem claim_C5_amended_selector_dispatch (st : BitReader) (hv : st.Valid)
    (hlen : 2 ≤ streamLen st) :
    (streamVal st % 4 = 3 → (read_bitdouble st).1 = RResult.fatal)
  ∧ (streamVal st % 4 = 1 → (read_bitdouble st).1 = RResult.val f64_one_bits)
  ∧ (streamVal st % 4 = 2 → (read_bitdouble st).1 = RResult.val f64_zero_bits)
  ∧ (streamVal st % 4 = 0 → 66 ≤ streamLen st →
      (read_bitdouble st).1 = RResult.val
        ((streamVal st / 4 / 2 ^ 32 % 2 ^ 32) <<< 32 ||| streamVal st / 4 % 2 ^ 32)) := by
  obtain ⟨st', he, hv', hS', hL', _⟩ := read_bits_ok 2 st hv hlen
  have h4 : (2 : Nat) ^ 2 = 4 := by norm_num
  rw [h4] at he hS'
  refine ⟨?_, ?_, ?_, ?_⟩
  · intro hm
    simp [read_bitdouble, he, hm]
  · intro hm
    simp [read_bitdouble, he, hm, f64_one_bits]
  · intro hm
    simp [read_bitdouble, he, hm, f64_zero_bits]
  · intro hm h66
    obtain ⟨st2, he2, hv2, hS2, hL2, _⟩ := read_bits_ok 32 st' hv' (by omega)
    obtain ⟨st3, he3, _, _, _, _⟩ := read_bits_ok 32 st2 hv2 (by omega)
    simp [read_bitdouble, he, hm, read_raw_double, he2, he3, hS', hS2]

/-- C9: modular-char decoding of [0b10000010, 0b00100100] yields 4610, and
modular-short decoding of [0b00110001, 0b11110100, 0b10001101, 0b00000000]
yields 4650033: each chunk contributes its low 7 (resp. 15) payload bits at
an increasing offset, continuing while the chunk's top bit is set. -/
theorem claim_C9_modular_vectors :
    (read_modular_char (BitReader.new [0x82, 0x24])).1 = some 4610
  ∧ (read_modular_short (BitReader.new [0x31, 0xF4, 0x8D, 0x00])).1 = some 4650033 := by
  decide

/-- C7, behaviour the claim requires, proved of the modelled version table:
each of the seven magic tokens resolves to its version; the seven versions
are strictly increasing in declaration (= chronological) order under the
discriminant ordering that Rust `derive(PartialOrd)` would provide — the
ordering src/bitcodes.rs and src/dwg.rs require but src/version.rs fails to
derive; and every other 6-byte input resolves to `none`, never a default. -/
theorem claim_C7_version_table :
    (DWGVersion.from_magic magicAC1012 = some DWGVersion.AC1012
      ∧ DWGVersion.from_magic magicAC1014 = some DWGVersion.AC1014
      ∧ DWGVersion.from_magic magicAC1015 = some DWGVersion.AC1015
      ∧ DWGVersion.from_magic magicAC1018 = some DWGVersion.AC1018
      ∧ DWGVersion.from_magic magicAC1021 = some DWGVersion.AC1021
      ∧ DWGVersion.from_magic magicAC1027 = some DWGVersion.AC1027
      ∧ DWGVersion.from_magic magicAC1032 = some DWGVersion.AC1032)
  ∧ List.Pairwise (fun a b : DWGVersion => a.idx < b.idx)
      [DWGVersion.AC1012, DWGVersion.AC1014, DWGVersion.AC1015,
       DWGVersion.AC1018, DWGVersion.AC1021, DWGVersion.AC1027,
       DWGVersion.AC1032]
  ∧ (∀ m : List Nat,
      DWGVersion.from_magic m = none
      ∨ m = magicAC1012 ∨ m = magicAC1014 ∨ m = magicAC1015 ∨ m = magicAC1018
      ∨ m = magicAC1021 ∨ m = magicAC1027 ∨ m = magicAC1032) := by
  refine ⟨by decide, by decide, ?_⟩
  intro m
  unfold DWGVersion.from_magic
  split_ifs with a1 a2 a3 a4 a5 a6 a7
  · exact Or.inr (Or.inl a1)
  · exact Or.inr (Or.inr (Or.inl a2))
  · exact Or.inr (Or.inr (Or.inr (Or.inl a3)))
  · exact Or.inr (Or.inr (Or.inr (Or.inr (Or.inl a4))))
  · exact Or.inr (Or.inr (Or.inr (Or.inr (Or.inr (Or.inl a5)))))
  · exact Or.inr (Or.inr (Or.inr (Or.inr (Or.inr (Or.inr (Or.inl a6))))))
  · exact Or.inr (Or.inr (Or.inr (Or.inr (Or.inr (Or.inr (Or.inr a7))))))
  · exact Or.inl rfl

/-- C8: on a cursor at or after the AC1015 boundary, extrusion decoding
reads one leading bit; if that bit is 1 it returns exactly the bit patterns
of (0.0, 0.0, 1.0) and consumes nothing further (its final state is the
state right after the single bit, one bit past the input state); if the bit
is 0 it reads three variable-doubles from there.  On a pre-boundary cursor
no leading bit is read: the three variable-doubles are decoded from the
unchanged input state. -/
theorem claim_C8_extrusion_gating (st : BitReader) (hv : st.Valid)
    (h1 : 1 ≤ streamLen st) :
    (st.version.idx < DWGVersion.AC1015.idx →
      read_bit_extrusion st = readThreeBitDoubles st)
  ∧ (DWGVersion.AC1015.idx ≤ st.version.idx → streamVal st % 2 = 1 →
      ∃ st', read_bit_extrusion st
          = (RResult.val (f64_zero_bits, f64_zero_bits, f64_one_bits), st')
        ∧ streamVal st' = streamVal st / 2
        ∧ streamLen st' = streamLen st - 1
        ∧ st'.Valid ∧ st'.version = st.version)
  ∧ (DWGVersion.AC1015.idx ≤ st.version.idx → streamVal st % 2 = 0 →
      ∃ st', read_bit st = (some 0, st')
        ∧ read_bit_extrusion st = readThreeBitDoubles st') := by
  obtain ⟨st', he, hv', hS', hL', hver'⟩ := read_bits_ok 1 st hv h1
  have he1 : read_bit st = (some (streamVal st % 2), st') := by
    rw [read_bit, he]
    norm_num
  refine ⟨?_, ?_, ?_⟩
  · intro hlt
    rw [read_bit_extrusion, if_neg (by omega)]
  · intro hge hm
    refine ⟨st', ?_, by rw [hS']; norm_num, by rw [hL'], hv', hver'⟩
    rw [read_bit_extrusion, if_pos hge, he1, hm]
    rfl
  · intro hge hm
    refine ⟨st', by rw [he1, hm], ?_⟩
    rw [read_bit_extrusion, if_pos hge, he1, hm]
    simp

/-- Witness for C8's short-circuit clause on the stream [0x01] (leading bit
set) with the default AC1015 version. -/
theorem claim_C8_extrusion_gating_witness :
    ∃ st', read_bit_extrusion (BitReader.new [0x01])
        = (RResult.val (f64_zero_bits, f64_zero_bits, f64_one_bits), st')
      ∧ streamVal st' = streamVal (BitReader.new [0x01]) / 2
      ∧ streamLen st' = streamLen (BitReader.new [0x01]) - 1
      ∧ st'.Valid ∧ st'.version = (BitReader.new [0x01]).version :=
  (claim_C8_extrusion_gating (BitReader.new [0x01]) (by decide) (by decide)).2.1
    (by decide) (by decide)

/-- C10: a fresh reader stores version AC1015; `read_version` consumes the
six magic bytes and returns the resolved version while leaving the stored
version unchanged (in every outcome); the stored version changes through
`set_version`; and a version-gated decoder invoked before `set_version`
silently uses AC1015 (post-boundary) semantics — on a fresh reader whose
first bit is set, extrusion decoding takes the short-circuit branch rather
than failing with any version-not-set error. -/
theorem claim_C10_default_version_lifecycle :
    (∀ l : List Nat, (BitReader.new l).version = DWGVersion.AC1015)
  ∧ (∀ (st : BitReader) (v : DWGVersion), (BitReader.set_version v st).version = v)
  ∧ (∀ st : BitReader, ((read_version st).2).version = st.version)
  ∧ (∀ m0 m1 m2 m3 m4 m5 : Nat, ∀ rest : List Nat,
      m0 < 256 → m1 < 256 → m2 < 256 → m3 < 256 → m4 < 256 → m5 < 256 →
      read_version (BitReader.new (m0 :: m1 :: m2 :: m3 :: m4 :: m5 :: rest))
        = (DWGVersion.from_magic [m0, m1, m2, m3, m4, m5],
           ⟨m5, 8, rest, DWGVersion.AC1015⟩))
  ∧ (∀ rest : List Nat,
      (read_bit_extrusion (BitReader.new (1 :: rest))).1
        = RResult.val (f64_zero_bits, f64_zero_bits, f64_one_bits)) := by
  refine ⟨fun l => rfl, fun st v => rfl, read_version_version, ?_, ?_⟩
  · intro m0 m1 m2 m3 m4 m5 rest h0 h1 h2 h3 h4 h5
    exact read_version_cons 0 m0 m1 m2 m3 m4 m5 h0 h1 h2 h3 h4 h5 rest
      DWGVersion.AC1015
  · intro rest
    have hbit : read_bit (BitReader.new (1 :: rest))
        = (some 1, ⟨1, 1, rest, DWGVersion.AC1015⟩) := by
      simp [read_bit, read_bits, readBitsAux, BitReader.new]
    rw [read_bit_extrusion, if_pos (by norm_num [BitReader.new, DWGVersion.idx]),
      hbit]
    rfl

/-- Witness for C10's magic-consumption clause at the AC1018 token followed
by a leftover byte. -/
theorem claim_C10_default_version_lifecycle_witness :
    read_version (BitReader.new [0x41, 0x43, 0x31, 0x30, 0x31, 0x38, 0x7F])
      = (DWGVersion.from_magic [0x41, 0x43, 0x31, 0x30, 0x31, 0x38],
         ⟨0x38, 8, [0x7F], DWGVersion.AC1015⟩) :=
  claim_C10_default_version_lifecycle.2.2.2.1 0x41 0x43 0x31 0x30 0x31 0x38 [0x7F]
    (by decide) (by decide) (by decide) (by decide) (by decide) (by decide)

/-- Value of the all-zero record-count long, used by the header proof. -/
theorem toSigned32_zero_toNat : (toSigned 32 0).toNat = 0 := by
  decide

/-- Bound of the literal zero byte, used to discharge side conditions. -/
theorem zero_lt_256 : (0 : Nat) < 256 := by
  norm_num


/-- `read_raw_char` preserves the stored version. -/
theorem read_raw_char_version (st : BitReader) :
    ((read_raw_char st).2).version = st.version := by
  rcases hp : read_bits 8 st with ⟨o, st1⟩
  have h := read_bits_version 8 st
  rw [hp] at h
  simp [read_raw_char, hp]
  exact h

/-- `read_raw_short` preserves the stored version. -/
theorem read_raw_short_version (st : BitReader) :
    ((read_raw_short st).2).version = st.version := by
  rcases hp : read_bits 16 st with ⟨o, st1⟩
  have h := read_bits_version 16 st
  rw [hp] at h
  simp [read_raw_short, hp]
  exact h

/-- `read_raw_long` preserves the stored version. -/
theorem read_raw_long_version (st : BitReader) :
    ((read_raw_long st).2).version = st.version := by
  rcases hp : read_bits 32 st with ⟨o, st1⟩
  have h := read_bits_version 32 st
  rw [hp] at h
  simp [read_raw_long, hp]
  exact h

/-- `checkZeroBytes` preserves the stored version. -/
theorem checkZeroBytes_version (k : Nat) :
    ∀ st : BitReader, ((checkZeroBytes k st).2).version = st.version := by
  induction k with
  | zero => intro st; rfl
  | succ m ih =>
    intro st
    have h := read_raw_char_version st
    rcases hp : read_raw_char st with ⟨o, st1⟩
    rw [hp] at h
    rw [checkZeroBytes, hp]
    cases o with
    | none => exact h
    | some c =>
      dsimp only
      by_cases hc : c = 0
      · rw [if_pos hc]
        exact (ih st1).trans h
      · rw [if_neg hc]
        exact h

/-- `readLocatorRecords` preserves the stored version. -/
theorem readLocatorRecords_version (k : Nat) :
    ∀ st : BitReader, ((readLocatorRecords k st).2).version = st.version := by
  induction k with
  | zero => intro st; rfl
  | succ m ih =>
    intro st
    have h1 := read_raw_char_version st
    rcases hp1 : read_raw_char st with ⟨o1, s1⟩
    rw [hp1] at h1
    rw [readLocatorRecords, hp1]
    cases o1 with
    | none => exact h1
    | some c1 =>
      dsimp only
      have h2 := read_raw_long_version s1
      rcases hp2 : read_raw_long s1 with ⟨o2, s2⟩
      rw [hp2] at h2
      cases o2 with
      | none => exact h2.trans h1
      | some c2 =>
        dsimp only
        have h3 := read_raw_long_version s2
        rcases hp3 : read_raw_long s2 with ⟨o3, s3⟩
        rw [hp3] at h3
        cases o3 with
        | none => exact (h3.trans h2).trans h1
        | some c3 => exact ((ih s3).trans ((h3.trans h2))).trans h1

/-- `checkSentinelBytes` preserves the stored version. -/
theorem checkSentinelBytes_version (l : List Nat) :
    ∀ st : BitReader, ((checkSentinelBytes l st).2).version = st.version := by
  induction l with
  | nil => intro st; rfl
  | cons b rest ih =>
    intro st
    have h := read_raw_char_version st
    rcases hp : read_raw_char st with ⟨o, st1⟩
    rw [hp] at h
    rw [checkSentinelBytes, hp]
    cases o with
    | none => exact h
    | some c =>
      dsimp only
      by_cases hc : b = i8_as_u8 c
      · rw [if_pos hc]
        exact (ih st1).trans h
      · rw [if_neg hc]
        exact h

/-- When the magic resolves, the whole header parse stores the resolved
version, whatever its outcome. -/
theorem read_r2000_header_version (st st0 : BitReader) (v : DWGVersion)
    (hrv : read_version st = (some v, st0)) :
    ((read_r2000_header st).2).version = v := by
  rw [read_r2000_header, hrv]
  simp only [bindOpt_some]
  generalize hS1 : BitReader.set_version v st0 = S1
  have hS1v : S1.version = v := by rw [← hS1]; rfl
  have hz := checkZeroBytes_version 5 S1
  rcases hpz : checkZeroBytes 5 S1 with ⟨oz, s2⟩
  rw [hpz] at hz
  cases oz with
  | err => exact hz.trans hS1v
  | fatal => exact hz.trans hS1v
  | val a =>
    simp only [bindRes_val]
    have h3 := read_raw_char_version s2
    rcases hp3 : read_raw_char s2 with ⟨o3, s3⟩
    rw [hp3] at h3
    cases o3 with
    | none => exact (h3.trans hz).trans hS1v
    | some c3 =>
      simp only [bindOpt_some]
      have hacc3 : s3.version = v := (h3.trans hz).trans hS1v
      have h4 := read_raw_char_version s3
      rcases hp4 : read_raw_char s3 with ⟨o4, s4⟩
      rw [hp4] at h4
      dsimp only
      have hacc4 : s4.version = v := h4.trans hacc3
      by_cases hc4 : o4 = some 1
      · rw [if_pos hc4]
        have h5 := read_raw_long_version s4
        rcases hp5 : read_raw_long s4 with ⟨o5, s5⟩
        rw [hp5] at h5
        cases o5 with
        | none => exact h5.trans hacc4
        | some c5 =>
          simp only [bindOpt_some]
          have hacc5 : s5.version = v := h5.trans hacc4
          have h6 := read_raw_char_version s5
          rcases hp6 : read_raw_char s5 with ⟨o6, s6⟩
          rw [hp6] at h6
          cases o6 with
          | none => exact h6.trans hacc5
          | some c6 =>
            simp only [bindOpt_some]
            have hacc6 : s6.version = v := h6.trans hacc5
            have h7 := read_raw_long_version s6
            rcases hp7 : read_raw_long s6 with ⟨o7, s7⟩
            rw [hp7] at h7
            cases o7 with
            | none => exact h7.trans hacc6
            | some c7 =>
              simp only [bindOpt_some]
              have hacc7 : s7.version = v := h7.trans hacc6
              have h8 := readLocatorRecords_version c7.toNat s7
              rcases hp8 : readLocatorRecords c7.toNat s7 with ⟨o8, s8⟩
              rw [hp8] at h8
              cases o8 with
              | err => exact h8.trans hacc7
              | fatal => exact h8.trans hacc7
              | val a8 =>
                simp only [bindRes_val]
                have hacc8 : s8.version = v := h8.trans hacc7
                have h9 := read_raw_short_version s8
                rcases hp9 : read_raw_short s8 with ⟨o9, s9⟩
                rw [hp9] at h9
                cases o9 with
                | none => exact h9.trans hacc8
                | some c9 =>
                  simp only [bindOpt_some]
                  have hacc9 : s9.version = v := h9.trans hacc8
                  exact (checkSentinelBytes_version hdrSentinel s9).trans hacc9
      · rw [if_neg hc4]
        exact hacc4

set_option maxHeartbeats 3200000 in
/-- C6 amended: for every header stream shaped as
magic(6) · reserved(5) · unchecked(1) · literal-1 slot(1) · seeker(4) ·
unchecked(1) · zero record count(4) · crc(2) · sentinel(16)
whose magic resolves to some version v, the parse returns `Some(())`
(modelled `RResult.val ()`) exactly when the five reserved bytes are zero,
the literal-1 slot holds 1, and the 16 trailing bytes equal the fixed
sentinel; any violation of one of those checks makes the parse panic
through `assert_eq!` (modelled `RResult.fatal`) — a panic, not a typed
`MalformedHeader` error value.  In every outcome the reader's stored
version has been set to the parsed v (the parse yields the version through
the reader). -/
theorem claim_C6_amended_header_protocol
    (m0 m1 m2 m3 m4 m5 r0 r1 r2 r3 r4 u1 lit s0 s1 s2 s3 u2 c0 c1
     t0 t1 t2 t3 t4 t5 t6 t7 t8 t9 t10 t11 t12 t13 t14 t15 : Fin 256)
    (v : DWGVersion)
    (hm : DWGVersion.from_magic [m0.val, m1.val, m2.val, m3.val, m4.val, m5.val]
      = some v) :
    (read_r2000_header (BitReader.new
        [m0.val, m1.val, m2.val, m3.val, m4.val, m5.val,
         r0.val, r1.val, r2.val, r3.val, r4.val, u1.val, lit.val,
         s0.val, s1.val, s2.val, s3.val, u2.val, 0, 0, 0, 0, c0.val, c1.val,
         t0.val, t1.val, t2.val, t3.val, t4.val, t5.val, t6.val, t7.val,
         t8.val, t9.val, t10.val, t11.val, t12.val, t13.val, t14.val, t15.val])).1
      = (if r0.val = 0 ∧ r1.val = 0 ∧ r2.val = 0 ∧ r3.val = 0 ∧ r4.val = 0
            ∧ lit.val = 1
            ∧ t0.val = 0x95 ∧ t1.val = 0xA0 ∧ t2.val = 0x4E ∧ t3.val = 0x28
            ∧ t4.val = 0x99 ∧ t5.val = 0x82 ∧ t6.val = 0x1A ∧ t7.val = 0xE5
            ∧ t8.val = 0x5E ∧ t9.val = 0x41 ∧ t10.val = 0xE0 ∧ t11.val = 0x5F
            ∧ t12.val = 0x9D ∧ t13.val = 0x3A ∧ t14.val = 0x4D ∧ t15.val = 0
         then RResult.val () else RResult.fatal)
  ∧ ((read_r2000_header (BitReader.new
        [m0.val, m1.val, m2.val, m3.val, m4.val, m5.val,
         r0.val, r1.val, r2.val, r3.val, r4.val, u1.val, lit.val,
         s0.val, s1.val, s2.val, s3.val, u2.val, 0, 0, 0, 0, c0.val, c1.val,
         t0.val, t1.val, t2.val, t3.val, t4.val, t5.val, t6.val, t7.val,
         t8.val, t9.val, t10.val, t11.val, t12.val, t13.val, t14.val,
         t15.val])).2).version = v := by
  constructor
  · rw [read_r2000_header,
      show BitReader.new
        [m0.val, m1.val, m2.val, m3.val, m4.val, m5.val,
         r0.val, r1.val, r2.val, r3.val, r4.val, u1.val, lit.val,
         s0.val, s1.val, s2.val, s3.val, u2.val, 0, 0, 0, 0, c0.val, c1.val,
         t0.val, t1.val, t2.val, t3.val, t4.val, t5.val, t6.val, t7.val,
         t8.val, t9.val, t10.val, t11.val, t12.val, t13.val, t14.val, t15.val]
      = (⟨0, 8,
          [m0.val, m1.val, m2.val, m3.val, m4.val, m5.val,
           r0.val, r1.val, r2.val, r3.val, r4.val, u1.val, lit.val,
           s0.val, s1.val, s2.val, s3.val, u2.val, 0, 0, 0, 0, c0.val, c1.val,
           t0.val, t1.val, t2.val, t3.val, t4.val, t5.val, t6.val, t7.val,
           t8.val, t9.val, t10.val, t11.val, t12.val, t13.val, t14.val, t15.val],
          DWGVersion.AC1015⟩ : BitReader) from rfl,
      read_version_cons _ _ _ _ _ _ _ m0.is_lt m1.is_lt m2.is_lt m3.is_lt
        m4.is_lt m5.is_lt, hm]
    simp only [bindOpt_some, BitReader.set_version]
    simp only [checkZeroBytes, read_raw_char_cons, Fin.is_lt, toSigned8_eq_zero,
      bindRes_ite, bindRes_val, bindRes_err, bindRes_fatal, fst_ite]
    simp only [read_raw_char_cons, read_raw_long_cons, read_raw_short_cons,
      Fin.is_lt, zero_lt_256, bindOpt_some, bindOpt_ite, toSigned8_eq_one,
      Option.some.injEq, Nat.zero_shiftLeft, Nat.zero_or, Nat.or_zero,
      toSigned32_zero_toNat, readLocatorRecords, bindRes_val, bindRes_ite,
      fst_ite]
    simp only [checkSentinelBytes, hdrSentinel, read_raw_char_cons, Fin.is_lt,
      zero_lt_256, i8_u8_roundtrip, bindRes_ite, bindRes_val, bindRes_err,
      bindRes_fatal, bindOpt_ite, bindOpt_some, fst_ite]
    by_cases hC : (r0.val = 0 ∧ r1.val = 0 ∧ r2.val = 0 ∧ r3.val = 0 ∧ r4.val = 0
        ∧ lit.val = 1
        ∧ t0.val = 0x95 ∧ t1.val = 0xA0 ∧ t2.val = 0x4E ∧ t3.val = 0x28
        ∧ t4.val = 0x99 ∧ t5.val = 0x82 ∧ t6.val = 0x1A ∧ t7.val = 0xE5
        ∧ t8.val = 0x5E ∧ t9.val = 0x41 ∧ t10.val = 0xE0 ∧ t11.val = 0x5F
        ∧ t12.val = 0x9D ∧ t13.val = 0x3A ∧ t14.val = 0x4D ∧ t15.val = 0)
    case pos =>
      rw [if_pos hC]
      obtain ⟨e1, e2, e3, e4, e5, e6, e7, e8, e9, e10, e11, e12, e13, e14,
        e15, e16, e17, e18, e19, e20, e21, e22⟩ := hC
      simp only [e1, e2, e3, e4, e5, e6, e7, e8, e9, e10, e11, e12, e13,
        e14, e15, e16, e17, e18, e19, e20, e21, e22]
      norm_num
    case neg =>
      rw [if_neg hC]
      by_cases h1 : r0.val = 0
      case neg => rw [if_neg h1]
      case pos =>
        rw [if_pos h1]
        by_cases h2 : r1.val = 0
        case neg => rw [if_neg h2]
        case pos =>
          rw [if_pos h2]
          by_cases h3 : r2.val = 0
          case neg => rw [if_neg h3]
          case pos =>
            rw [if_pos h3]
            by_cases h4 : r3.val = 0
            case neg => rw [if_neg h4]
            case pos =>
              rw [if_pos h4]
              by_cases h5 : r4.val = 0
              case neg => rw [if_neg h5]
              case pos =>
                rw [if_pos h5]
                by_cases h6 : lit.val = 1
                case neg => rw [if_neg h6]
                case pos =>
                  rw [if_pos h6]
                  by_cases h7 : 149 = t0.val
                  case neg => rw [if_neg h7]
                  case pos =>
                    rw [if_pos h7]
                    by_cases h8 : 160 = t1.val
                    case neg => rw [if_neg h8]
                    case pos =>
                      rw [if_pos h8]
                      by_cases h9 : 78 = t2.val
                      case neg => rw [if_neg h9]
                      case pos =>
                        rw [if_pos h9]
                        by_cases h10 : 40 = t3.val
                        case neg => rw [if_neg h10]
                        case pos =>
                          rw [if_pos h10]
                          by_cases h11 : 153 = t4.val
                          case neg => rw [if_neg h11]
                          case pos =>
                            rw [if_pos h11]
                            by_cases h12 : 130 = t5.val
                            case neg => rw [if_neg h12]
                            case pos =>
                              rw [if_pos h12]
                              by_cases h13 : 26 = t6.val
                              case neg => rw [if_neg h13]
                              case pos =>
                                rw [if_pos h13]
                                by_cases h14 : 229 = t7.val
                                case neg => rw [if_neg h14]
                                case pos =>
                                  rw [if_pos h14]
                                  by_cases h15 : 94 = t8.val
                                  case neg => rw [if_neg h15]
                                  case pos =>
                                    rw [if_pos h15]
                                    by_cases h16 : 65 = t9.val
                                    case neg => rw [if_neg h16]
                                    case pos =>
                                      rw [if_pos h16]
                                      by_cases h17 : 224 = t10.val
                                      case neg => rw [if_neg h17]
                                      case pos =>
                                        rw [if_pos h17]
                                        by_cases h18 : 95 = t11.val
                                        case neg => rw [if_neg h18]
                                        case pos =>
                                          rw [if_pos h18]
                                          by_cases h19 : 157 = t12.val
                                          case neg => rw [if_neg h19]
                                          case pos =>
                                            rw [if_pos h19]
                                            by_cases h20 : 58 = t13.val
                                            case neg => rw [if_neg h20]
                                            case pos =>
                                              rw [if_pos h20]
                                              by_cases h21 : 77 = t14.val
                                              case neg => rw [if_neg h21]
                                              case pos =>
                                                rw [if_pos h21]
                                                by_cases h22 : 0 = t15.val
                                                case neg => rw [if_neg h22]
                                                case pos =>
                                                  rw [if_pos h22]
                                                  exact absurd ⟨h1, h2, h3, h4, h5, h6, h7.symm, h8.symm, h9.symm, h10.symm, h11.symm, h12.symm, h13.symm, h14.symm, h15.symm, h16.symm, h17.symm, h18.symm, h19.symm, h20.symm, h21.symm, h22.symm⟩ hC
  · apply read_r2000_header_version _ _ v
    rw [show BitReader.new
        [m0.val, m1.val, m2.val, m3.val, m4.val, m5.val,
         r0.val, r1.val, r2.val, r3.val, r4.val, u1.val, lit.val,
         s0.val, s1.val, s2.val, s3.val, u2.val, 0, 0, 0, 0, c0.val, c1.val,
         t0.val, t1.val, t2.val, t3.val, t4.val, t5.val, t6.val, t7.val,
         t8.val, t9.val, t10.val, t11.val, t12.val, t13.val, t14.val, t15.val]
      = (⟨0, 8, m0.val :: m1.val :: m2.val :: m3.val :: m4.val :: m5.val ::
          [r0.val, r1.val, r2.val, r3.val, r4.val, u1.val, lit.val,
           s0.val, s1.val, s2.val, s3.val, u2.val, 0, 0, 0, 0, c0.val, c1.val,
           t0.val, t1.val, t2.val, t3.val, t4.val, t5.val, t6.val, t7.val,
           t8.val, t9.val, t10.val, t11.val, t12.val, t13.val, t14.val, t15.val],
          DWGVersion.AC1015⟩ : BitReader) from rfl,
      read_version_cons _ _ _ _ _ _ _ m0.is_lt m1.is_lt m2.is_lt m3.is_lt
        m4.is_lt m5.is_lt, hm]

/-- Witness for C6 amended: a concrete well-formed AC1015 header with
arbitrary unchecked bytes parses to `Some(())` with version AC1015 stored. -/
theorem claim_C6_amended_header_protocol_witness :
    (read_r2000_header (BitReader.new
      (magicAC1015 ++ [0, 0, 0, 0, 0] ++ [7] ++ [1] ++ [9, 9, 9, 9] ++ [7]
        ++ [0, 0, 0, 0] ++ [5, 5] ++ hdrSentinel))).1 = RResult.val ()
  ∧ ((read_r2000_header (BitReader.new
      (magicAC1015 ++ [0, 0, 0, 0, 0] ++ [7] ++ [1] ++ [9, 9, 9, 9] ++ [7]
        ++ [0, 0, 0, 0] ++ [5, 5] ++ hdrSentinel))).2).version
      = DWGVersion.AC1015 := by
  have h := claim_C6_amended_header_protocol 65 67 49 48 49 53 0 0 0 0 0 7 1
      9 9 9 9 7 5 5 0x95 0xA0 0x4E 0x28 0x99 0x82 0x1A 0xE5 0x5E 0x41 0xE0
      0x5F 0x9D 0x3A 0x4D 0 DWGVersion.AC1015 (by decide)
  exact ⟨h.1.trans (by decide), h.2⟩

/-- Witness for C5 amended at the one-byte stream [0x01] (selector 1). -/
theorem claim_C5_amended_selector_dispatch_witness :
    (read_bitdouble (BitReader.new [0x01])).1 = RResult.val f64_one_bits :=
  (claim_C5_amended_selector_dispatch (BitReader.new [0x01]) (by decide)
    (by decide)).2.1 (by decide)

end Dwg
